import Mathlib

/-!
# Verification of the ontobuilder / ontopilot module-extraction engine

A shallow embedding of the module-extraction core of the `stuckyb/ontobuilder`
repository (`src/bin/ontopilot/module_extractor.py` together with the entity
lookup and ontology-annotation helpers of `src/bin/ontobuilder/ontology.py`),
with theorems settling the specification claims about it.

Python `set` objects are embedded as duplicate-free lists with an
insert-if-absent primitive (`addToSet`); `set.pop` is determinized as
popping the head of the list.  The two work-set loops
(`_getEntitiesInHierarchies` and `_extractSingleEntities`) are embedded with
an explicit fuel parameter; fuel exhaustion returns `none`, and the
termination theorems show that some finite fuel always suffices.
-/

namespace OntoBuilder

/-- The OWL API entity kinds (`org.semanticweb.owlapi.model.EntityType`)
relevant to the engine. -/
inductive EntityType where
  | CLASS
  | OBJECT_PROPERTY
  | DATA_PROPERTY
  | ANNOTATION_PROPERTY
  | NAMED_INDIVIDUAL
  deriving DecidableEq, Repr

/-- An OWL API `OWLEntity`: an entity kind plus an IRI.  Entities are value
objects: equal kind and IRI means the same entity. -/
structure OWLEntity where
  etype : EntityType
  iri : String
  deriving DecidableEq, Repr

/-- An OWL class expression, as far as the engine inspects one: either a
named class, or an anonymous (complex) expression such as an intersection.
Only `isAnonymous` and the IRI of a named class are ever consulted. -/
inductive ClassExpression where
  | named (iri : String)
  | intersectionOf (a b : ClassExpression)
  | otherAnonymous (tag : Nat)
  deriving DecidableEq, Repr

/-- Embeds `OWLClassExpression.isAnonymous`: true for everything but a named class. -/
def ClassExpression.isAnonymous : ClassExpression → Bool
  | .named _ => false
  | .intersectionOf _ _ => true
  | .otherAnonymous _ => true

/-- An OWL object property expression: a named property or the (anonymous)
inverse of one. -/
inductive ObjectPropertyExpression where
  | named (iri : String)
  | inverseOf (iri : String)
  deriving DecidableEq, Repr

/-- Embeds `OWLObjectPropertyExpression.isAnonymous`. -/
def ObjectPropertyExpression.isAnonymous : ObjectPropertyExpression → Bool
  | .named _ => false
  | .inverseOf _ => true

/-- The axiom shapes the engine distinguishes.  Data property expressions and
annotation properties are never anonymous in the OWL API, so the sub/super
sides of those subsumption axioms are plain IRIs.  `otherAxiom` stands for
every axiom type the engine passes through without inspecting. -/
inductive Axiom where
  | declaration (e : OWLEntity)
  | annotationAssertion (prop : String) (subject : String) (value : String)
  | subClassOf (sub : ClassExpression) (sup : ClassExpression)
  | subObjectPropertyOf (sub : ObjectPropertyExpression) (sup : ObjectPropertyExpression)
  | subDataPropertyOf (sub : String) (sup : String)
  | subAnnotationPropertyOf (sub : String) (sup : String)
  | otherAxiom (tag : Nat)
  deriving DecidableEq, Repr

/-!
## Python sets as duplicate-free lists
-/

/-- Embeds `s.add(x)` on a Python set: insert `x` only if it is not already a
member. -/
def addToSet {α : Type} [DecidableEq α] (s : List α) (x : α) : List α :=
  if x ∈ s then s else s ++ [x]

/-- Embeds `s.update(xs)` on a Python set: insert every element of `xs`. -/
def addAllToSet {α : Type} [DecidableEq α] (s : List α) (xs : List α) : List α :=
  xs.foldl addToSet s

theorem mem_addToSet {α : Type} [DecidableEq α] {s : List α} {x y : α} :
    y ∈ addToSet s x ↔ y ∈ s ∨ y = x := by
  unfold addToSet
  by_cases h : x ∈ s
  · simp only [if_pos h]
    constructor
    · exact fun hy => Or.inl hy
    · rintro (hy | rfl)
      · exact hy
      · exact h
  · simp [if_neg h]

theorem subset_addToSet {α : Type} [DecidableEq α] (s : List α) (x : α) :
    ∀ y ∈ s, y ∈ addToSet s x := fun y hy => mem_addToSet.mpr (Or.inl hy)

theorem self_mem_addToSet {α : Type} [DecidableEq α] (s : List α) (x : α) :
    x ∈ addToSet s x := mem_addToSet.mpr (Or.inr rfl)

theorem addToSet_nodup {α : Type} [DecidableEq α] {s : List α} (h : s.Nodup)
    (x : α) : (addToSet s x).Nodup := by
  unfold addToSet
  by_cases hx : x ∈ s
  · simpa [if_pos hx] using h
  · simpa [if_neg hx, List.nodup_append] using ⟨h, hx⟩

theorem foldl_addToSet_subset {α : Type} [DecidableEq α] :
    ∀ (l : List α) (s : List α), ∀ y ∈ s, y ∈ l.foldl addToSet s
  | [], _, _, hy => hy
  | x :: l, s, y, hy =>
      foldl_addToSet_subset l (addToSet s x) y (subset_addToSet s x y hy)

theorem mem_foldl_addToSet {α : Type} [DecidableEq α] :
    ∀ (l : List α) (s : List α), ∀ y ∈ l, y ∈ l.foldl addToSet s
  | x :: l, s, y, hy => by
      rcases hy with _ | hy
      · exact foldl_addToSet_subset l (addToSet s x) x (self_mem_addToSet s x)
      · exact mem_foldl_addToSet l (addToSet s x) y (by assumption)

theorem foldl_addToSet_nodup {α : Type} [DecidableEq α] :
    ∀ (l : List α) {s : List α}, s.Nodup → (l.foldl addToSet s).Nodup
  | [], _, h => h
  | x :: l, _, h => foldl_addToSet_nodup l (addToSet_nodup h x)

theorem mem_of_mem_foldl_addToSet {α : Type} [DecidableEq α] :
    ∀ (l : List α) (s : List α), ∀ y ∈ l.foldl addToSet s, y ∈ s ∨ y ∈ l
  | [], _, _, hy => Or.inl hy
  | x :: l, s, y, hy => by
      rcases mem_of_mem_foldl_addToSet l (addToSet s x) y hy with h | h
      · rcases mem_addToSet.mp h with h | rfl
        · exact Or.inl h
        · exact Or.inr (List.mem_cons_self _ _)
      · exact Or.inr (List.mem_cons_of_mem _ h)

/-!
## The source ontology and its indexed queries

The ontology-store collaborator (`ontobuilder.Ontology` wrapping an OWL API
`OWLOntology`).  The engine sees the root ontology's own axioms
(`self.owlont`) and the axiom lists of everything in its transitive imports
closure (`getImportsClosure`, which includes the root ontology itself), plus
the optional ontology IRI and version IRI of the root ontology's ID.
-/

structure SourceOntology where
  rootAxioms : List Axiom
  importedAxioms : List (List Axiom)
  ontologyIRI : Option String
  versionIRI : Option String

/-- Embeds `OWLOntology.getImportsClosure`: the ontology itself plus everything it
transitively imports. -/
def SourceOntology.importsClosure (src : SourceOntology) : List (List Axiom) :=
  src.rootAxioms :: src.importedAxioms

/-- Embeds `OWLOntology.getDeclarationAxioms(entity)`: the declaration axioms for
the given entity contained in the given ontology. -/
def getDeclarationAxioms (axs : List Axiom) (e : OWLEntity) : List Axiom :=
  axs.filter fun ax =>
    match ax with
    | .declaration d => d == e
    | _ => false

/-- Embeds `OWLOntology.getAnnotationAssertionAxioms(iri)`: the annotation
assertion axioms whose subject is the given IRI. -/
def getAnnotationAssertionAxioms (axs : List Axiom) (subjectIRI : String) :
    List Axiom :=
  axs.filter fun ax =>
    match ax with
    | .annotationAssertion _ s _ => s == subjectIRI
    | _ => false

/-- Embeds `OWLOntology.getSubClassAxiomsForSubClass(cls)`: subclass axioms whose
sub-class side is the given named class. -/
def getSubClassAxiomsForSubClass (axs : List Axiom) (e : OWLEntity) :
    List Axiom :=
  axs.filter fun ax =>
    match ax with
    | .subClassOf (.named c) _ => c == e.iri
    | _ => false

/-- Embeds `OWLOntology.getObjectSubPropertyAxiomsForSubProperty(prop)`. -/
def getObjectSubPropertyAxiomsForSubProperty (axs : List Axiom)
    (e : OWLEntity) : List Axiom :=
  axs.filter fun ax =>
    match ax with
    | .subObjectPropertyOf (.named p) _ => p == e.iri
    | _ => false

/-- Embeds `OWLOntology.getDataSubPropertyAxiomsForSubProperty(prop)`. -/
def getDataSubPropertyAxiomsForSubProperty (axs : List Axiom)
    (e : OWLEntity) : List Axiom :=
  axs.filter fun ax =>
    match ax with
    | .subDataPropertyOf p _ => p == e.iri
    | _ => false

/-- Embeds `OWLOntology.getSubAnnotationPropertyOfAxioms(prop)`. -/
def getSubAnnotationPropertyOfAxioms (axs : List Axiom) (e : OWLEntity) :
    List Axiom :=
  axs.filter fun ax =>
    match ax with
    | .subAnnotationPropertyOf p _ => p == e.iri
    | _ => false

/-!
## The hierarchy closure resolver (`_getEntitiesInHierarchies`)
-/

/-- The named super-entity of a subsumption axiom, or `none` when the super
side is an anonymous expression.  This captures the per-branch
`isAnonymous()` guard of `_getEntitiesInHierarchies`: the super side of a
subclass axiom is `asOWLClass()` of a named class expression, of an object
sub-property axiom `asOWLObjectProperty()` of a named property expression,
and data/annotation property super sides are never anonymous. -/
def namedSuperOf : Axiom → Option OWLEntity
  | .subClassOf _ (.named c) => some ⟨.CLASS, c⟩
  | .subObjectPropertyOf _ (.named p) => some ⟨.OBJECT_PROPERTY, p⟩
  | .subDataPropertyOf _ p => some ⟨.DATA_PROPERTY, p⟩
  | .subAnnotationPropertyOf _ p => some ⟨.ANNOTATION_PROPERTY, p⟩
  | _ => none

/-- The subsumption-axiom query `_getEntitiesInHierarchies` dispatches to for
each entity kind (`getEntityType()`).  A named individual matches none of the
`if`/`elif` branches, so no axioms are examined for it. -/
def hierAxiomsFor (owlont : List Axiom) (e : OWLEntity) : List Axiom :=
  match e.etype with
  | .CLASS => getSubClassAxiomsForSubClass owlont e
  | .OBJECT_PROPERTY => getObjectSubPropertyAxiomsForSubProperty owlont e
  | .DATA_PROPERTY => getDataSubPropertyAxiomsForSubProperty owlont e
  | .ANNOTATION_PROPERTY => getSubAnnotationPropertyOfAxioms owlont e
  | .NAMED_INDIVIDUAL => []

/-- The body of the inner `for axiom in axioms` loop of
`_getEntitiesInHierarchies`: when the super side is named, record the axiom
in `axiomset` and, if the super entity has not already been processed
(membership in `hierset`), add it to the work set `signature`.  The state
is the pair (work signature, axiomset). -/
def hierAddAxiom (hierset : List OWLEntity)
    (st : List OWLEntity × List Axiom) (ax : Axiom) :
    List OWLEntity × List Axiom :=
  match namedSuperOf ax with
  | some sup =>
      (if sup ∈ hierset then st.1 else addToSet st.1 sup, addToSet st.2 ax)
  | none => st

/-- Embeds `_getEntitiesInHierarchies`: the `while len(signature) > 0` work-set
loop, with `signature.pop()` determinized as popping the head of the list
and an explicit fuel bound on the number of iterations (`none` = fuel ran
out).  Each popped entity is added to `hierset` before its subsumption
axioms are examined. -/
def getEntitiesInHierarchies (owlont : List Axiom) :
    Nat → List OWLEntity → List OWLEntity → List Axiom →
    Option (List OWLEntity × List Axiom)
  | _, [], hierset, axiomset => some (hierset, axiomset)
  | 0, _ :: _, _, _ => none
  | fuel + 1, entity :: sigrest, hierset, axiomset =>
      let hierset' := addToSet hierset entity
      let st := (hierAxiomsFor owlont entity).foldl (hierAddAxiom hierset')
        (sigrest, axiomset)
      getEntitiesInHierarchies owlont fuel st.1 hierset' st.2

/-!
## Concrete fixtures
-/

/-- Class entity A of the three-class subsumption cycle. -/
def entA : OWLEntity := ⟨.CLASS, "http://example.org/A"⟩

/-- Class entity B of the three-class subsumption cycle. -/
def entB : OWLEntity := ⟨.CLASS, "http://example.org/B"⟩

/-- Class entity C of the three-class subsumption cycle. -/
def entC : OWLEntity := ⟨.CLASS, "http://example.org/C"⟩

/-- The subsumption axiom A ⊑ B. -/
def axAB : Axiom :=
  .subClassOf (.named "http://example.org/A") (.named "http://example.org/B")

/-- The subsumption axiom B ⊑ C. -/
def axBC : Axiom :=
  .subClassOf (.named "http://example.org/B") (.named "http://example.org/C")

/-- The subsumption axiom C ⊑ A. -/
def axCA : Axiom :=
  .subClassOf (.named "http://example.org/C") (.named "http://example.org/A")

/-- A source graph whose only subsumption axioms form the cycle
A ⊑ B ⊑ C ⊑ A. -/
def owlontABC : List Axiom :=
  [.declaration entA, .declaration entB, .declaration entC, axAB, axBC, axCA]

/-!
## Properties of the inner fold of the hierarchy resolver
-/

theorem hierAddAxiom_eq_some {hs : List OWLEntity}
    {st : List OWLEntity × List Axiom} {ax : Axiom} {sup : OWLEntity}
    (h : namedSuperOf ax = some sup) :
    hierAddAxiom hs st ax =
      (if sup ∈ hs then st.1 else addToSet st.1 sup, addToSet st.2 ax) := by
  unfold hierAddAxiom
  rw [h]

theorem hierAddAxiom_eq_none {hs : List OWLEntity}
    {st : List OWLEntity × List Axiom} {ax : Axiom}
    (h : namedSuperOf ax = none) :
    hierAddAxiom hs st ax = st := by
  unfold hierAddAxiom
  rw [h]

theorem hierAddAxiom_fold_subset (hs : List OWLEntity) :
    ∀ (l : List Axiom) (st : List OWLEntity × List Axiom),
      ∀ x ∈ st.1, x ∈ (l.foldl (hierAddAxiom hs) st).1
  | [], _, _, hx => hx
  | ax :: l, st, x, hx => by
      apply hierAddAxiom_fold_subset hs l (hierAddAxiom hs st ax) x
      unfold hierAddAxiom
      cases hsup : namedSuperOf ax with
      | none => exact hx
      | some sup =>
          by_cases hmem : sup ∈ hs
          · simpa [hmem] using hx
          · simpa [hmem] using subset_addToSet st.1 sup x hx

theorem hierAddAxiom_fold_mem (hs : List OWLEntity) :
    ∀ (l : List Axiom) (st : List OWLEntity × List Axiom),
      ∀ x ∈ (l.foldl (hierAddAxiom hs) st).1,
        x ∈ st.1 ∨ ((∃ ax ∈ l, namedSuperOf ax = some x) ∧ x ∉ hs)
  | [], _, _, hx => Or.inl hx
  | ax :: l, st, x, hx => by
      rcases hierAddAxiom_fold_mem hs l (hierAddAxiom hs st ax) x hx with h | h
      · cases hsup : namedSuperOf ax with
        | none =>
            rw [hierAddAxiom_eq_none hsup] at h
            exact Or.inl h
        | some sup =>
            rw [hierAddAxiom_eq_some hsup] at h
            by_cases hmem : sup ∈ hs
            · rw [if_pos hmem] at h
              exact Or.inl h
            · rw [if_neg hmem] at h
              rcases mem_addToSet.mp h with h' | rfl
              · exact Or.inl h'
              · exact Or.inr ⟨⟨ax, List.mem_cons_self _ _, hsup⟩, hmem⟩
      · exact Or.inr ⟨⟨h.1.choose, List.mem_cons_of_mem _ h.1.choose_spec.1,
          h.1.choose_spec.2⟩, h.2⟩

theorem hierAddAxiom_fold_nodup (hs : List OWLEntity) :
    ∀ (l : List Axiom) (st : List OWLEntity × List Axiom),
      st.1.Nodup → (l.foldl (hierAddAxiom hs) st).1.Nodup
  | [], _, h => h
  | ax :: l, st, h => by
      apply hierAddAxiom_fold_nodup hs l (hierAddAxiom hs st ax)
      unfold hierAddAxiom
      cases namedSuperOf ax with
      | none => exact h
      | some sup =>
          by_cases hmem : sup ∈ hs
          · simpa [hmem] using h
          · simpa [hmem] using addToSet_nodup h sup

theorem hierAddAxiom_fold_none (hs : List OWLEntity) :
    ∀ (l : List Axiom) (st : List OWLEntity × List Axiom),
      (∀ ax ∈ l, namedSuperOf ax = none) → l.foldl (hierAddAxiom hs) st = st
  | [], _, _ => rfl
  | ax :: l, st, h => by
      have hax : namedSuperOf ax = none := h ax (List.mem_cons_self _ _)
      have hstep : hierAddAxiom hs st ax = st := by
        unfold hierAddAxiom
        rw [hax]
      rw [List.foldl_cons, hstep]
      exact hierAddAxiom_fold_none hs l st fun a ha =>
        h a (List.mem_cons_of_mem _ ha)

/-- Every axiom returned by one of the subsumption queries is an axiom of
the queried ontology. -/
theorem hierAxiomsFor_subset (owlont : List Axiom) (e : OWLEntity) :
    ∀ ax ∈ hierAxiomsFor owlont e, ax ∈ owlont := by
  intro ax hax
  obtain ⟨t, i⟩ := e
  cases t <;>
    first
      | exact (List.mem_filter.mp hax).1
      | cases hax

/-!
## Termination of the hierarchy resolver (fuel sufficiency)
-/

theorem getEntitiesInHierarchies_isSome (owlont : List Axiom)
    (U : Finset OWLEntity)
    (hU : ∀ ax ∈ owlont, ∀ e, namedSuperOf ax = some e → e ∈ U) :
    ∀ (fuel : Nat) (sig hierset : List OWLEntity) (axiomset : List Axiom),
      sig.Nodup → (∀ e ∈ sig, e ∉ hierset) → (∀ e ∈ sig, e ∈ U) →
      (U.filter (fun e => e ∉ hierset)).card ≤ fuel →
      (getEntitiesInHierarchies owlont fuel sig hierset axiomset).isSome =
        true := by
  intro fuel
  induction fuel with
  | zero =>
      intro sig hierset axiomset hnd hdisj hsub hcard
      cases sig with
      | nil => rfl
      | cons e rest =>
          exfalso
          have hmem : e ∈ U.filter (fun x => x ∉ hierset) :=
            Finset.mem_filter.mpr
              ⟨hsub e (List.mem_cons_self _ _), hdisj e (List.mem_cons_self _ _)⟩
          have : 0 < (U.filter (fun x => x ∉ hierset)).card :=
            Finset.card_pos.mpr ⟨e, hmem⟩
          omega
  | succ n ih =>
      intro sig hierset axiomset hnd hdisj hsub hcard
      cases sig with
      | nil => rfl
      | cons entity sigrest =>
          have hentU : entity ∈ U := hsub entity (List.mem_cons_self _ _)
          have hentH : entity ∉ hierset := hdisj entity (List.mem_cons_self _ _)
          have hndrest : sigrest.Nodup := (List.nodup_cons.mp hnd).2
          have hne : entity ∉ sigrest := (List.nodup_cons.mp hnd).1
          show (getEntitiesInHierarchies owlont n
            ((hierAxiomsFor owlont entity).foldl
              (hierAddAxiom (addToSet hierset entity)) (sigrest, axiomset)).1
            (addToSet hierset entity)
            ((hierAxiomsFor owlont entity).foldl
              (hierAddAxiom (addToSet hierset entity)) (sigrest, axiomset)).2).isSome = true
          apply ih
          · exact hierAddAxiom_fold_nodup _ _ _ hndrest
          · intro x hx
            rcases hierAddAxiom_fold_mem _ _ _ x hx with h | h
            · intro hx'
              rcases mem_addToSet.mp hx' with h' | rfl
              · exact hdisj x (List.mem_cons_of_mem _ h) h'
              · exact hne h
            · exact h.2
          · intro x hx
            rcases hierAddAxiom_fold_mem _ _ _ x hx with h | h
            · exact hsub x (List.mem_cons_of_mem _ h)
            · rcases h.1 with ⟨ax, hax, hsup⟩
              exact hU ax (hierAxiomsFor_subset owlont entity ax hax) x hsup
          · have herase :
                U.filter (fun x => x ∉ addToSet hierset entity) =
                  (U.filter (fun x => x ∉ hierset)).erase entity := by
              ext x
              simp only [Finset.mem_filter, Finset.mem_erase, mem_addToSet]
              constructor
              · intro ⟨hxU, hxm⟩
                exact ⟨fun hxe => hxm (Or.inr hxe), hxU, fun hxh => hxm (Or.inl hxh)⟩
              · intro ⟨hxe, hxU, hxh⟩
                exact ⟨hxU, fun h => h.elim hxh hxe⟩
            have hmem : entity ∈ U.filter (fun x => x ∉ hierset) :=
              Finset.mem_filter.mpr ⟨hentU, hentH⟩
            rw [herase, Finset.card_erase_of_mem hmem]
            have : 0 < (U.filter (fun x => x ∉ hierset)).card :=
              Finset.card_pos.mpr ⟨entity, hmem⟩
            omega

/-- C1: the hierarchy closure computation terminates for every finite source
graph, including graphs whose subsumption relation contains cycles: an
entity is enqueued onto the work set only when it is not already in the
closure set (`hierset`), so each entity is processed at most once and the
work loop ends (some finite fuel makes the fueled loop return a result). -/
theorem hierarchy_closure_terminates (owlont : List Axiom)
    (sig : List OWLEntity) (hnd : sig.Nodup) :
    ∃ fuel, (getEntitiesInHierarchies owlont fuel sig [] []).isSome = true := by
  refine ⟨(sig.toFinset ∪ (owlont.filterMap namedSuperOf).toFinset).card, ?_⟩
  apply getEntitiesInHierarchies_isSome owlont
    (sig.toFinset ∪ (owlont.filterMap namedSuperOf).toFinset)
  · intro ax hax e he
    exact Finset.mem_union_right _
      (List.mem_toFinset.mpr (List.mem_filterMap.mpr ⟨ax, hax, he⟩))
  · exact hnd
  · intro e _
    simp
  · intro e he
    exact Finset.mem_union_left _ (List.mem_toFinset.mpr he)
  · exact Finset.card_filter_le _ _

/-- Witness for C1: the termination theorem applied to the cyclic
three-class graph with signature {A}. -/
theorem hierarchy_closure_terminates_witness :
    ∃ fuel, (getEntitiesInHierarchies owlontABC fuel [entA] [] []).isSome =
      true :=
  hierarchy_closure_terminates owlontABC [entA] (by decide)

/-- C2: for classes A, B, C whose only subsumption axioms are A ⊑ B, B ⊑ C,
C ⊑ A, running the hierarchy closure on the signature {A} terminates and
returns the closure set {A, B, C} together with exactly those three
subsumption axioms, each appearing exactly once in the returned axiom
set. -/
theorem hierarchy_cycle_ABC :
    getEntitiesInHierarchies owlontABC 10 [entA] [] [] =
      some ([entA, entB, entC], [axAB, axBC, axCA]) ∧
    [entA, entB, entC].toFinset = {entA, entB, entC} ∧
    [axAB, axBC, axCA].count axAB = 1 ∧
    [axAB, axBC, axCA].count axBC = 1 ∧
    [axAB, axBC, axCA].count axCA = 1 ∧
    [axAB, axBC, axCA].length = 3 := by decide

/-- C8: for a class whose subclass axioms in the source graph all have an
anonymous (non-atomic) super-class expression, hierarchy closure on the
singleton signature containing that class yields a closure set containing
only the class itself and records no hierarchy axiom; anonymous
super-expressions are dropped without any failure. -/
theorem hierarchy_anonymous_skip (owlont : List Axiom) (c : String)
    (fuel : Nat)
    (h : ∀ ax ∈ hierAxiomsFor owlont ⟨.CLASS, c⟩, namedSuperOf ax = none) :
    getEntitiesInHierarchies owlont (fuel + 1) [⟨.CLASS, c⟩] [] [] =
      some ([⟨.CLASS, c⟩], []) := by
  have hfold :
      (hierAxiomsFor owlont ⟨.CLASS, c⟩).foldl
        (hierAddAxiom (addToSet [] ⟨.CLASS, c⟩)) ([], []) = ([], []) :=
    hierAddAxiom_fold_none _ _ _ h
  show getEntitiesInHierarchies owlont fuel
      ((hierAxiomsFor owlont ⟨.CLASS, c⟩).foldl
        (hierAddAxiom (addToSet [] ⟨.CLASS, c⟩)) ([], [])).1
      (addToSet [] ⟨.CLASS, c⟩)
      ((hierAxiomsFor owlont ⟨.CLASS, c⟩).foldl
        (hierAddAxiom (addToSet [] ⟨.CLASS, c⟩)) ([], [])).2 =
    some ([⟨.CLASS, c⟩], [])
  rw [hfold]
  cases fuel <;> rfl

/-- The class K, whose only super-class is an anonymous intersection. -/
def entK : OWLEntity := ⟨.CLASS, "http://example.org/K"⟩

/-- K ⊑ (P ⊓ Q): a subsumption axiom with an anonymous super-class. -/
def axKanon : Axiom :=
  .subClassOf (.named "http://example.org/K")
    (.intersectionOf (.named "http://example.org/P")
      (.named "http://example.org/Q"))

/-- A source graph where K's only super-class expression is anonymous. -/
def owlontK : List Axiom := [.declaration entK, axKanon]

/-- Witness for C8: the anonymous-skip theorem applied to the concrete
graph where K ⊑ (P ⊓ Q) is K's only subclass axiom. -/
theorem hierarchy_anonymous_skip_witness :
    getEntitiesInHierarchies owlontK 1 [entK] [] [] = some ([entK], []) :=
  hierarchy_anonymous_skip owlontK "http://example.org/K" 0 (by decide)

/-!
## Entity lookup (`ontobuilder.ontology.Ontology.getExisting*`)
-/

/-- The IRI of `rdfs:label` (`OWLDataFactory.getRDFSLabel()`). -/
def rdfsLabelIRI : String := "http://www.w3.org/2000/01/rdf-schema#label"

/-- The common body of `getExistingClass`, `getExistingDataProperty`,
`getExistingObjectProperty` and `getExistingAnnotationProperty`: build the
entity of the given kind for the IRI, and return it when some ontology in
the imports closure holds a declaration axiom for it, else `None`. -/
def getDeclaredEntityOfType (src : SourceOntology) (t : EntityType)
    (iri : String) : Option OWLEntity :=
  if src.importsClosure.any
      (fun axs => (getDeclarationAxioms axs ⟨t, iri⟩).length > 0) then
    some ⟨t, iri⟩
  else
    none

/-- Embeds `Ontology.getExistingProperty`: object property first, then annotation
property, then data property. -/
def getExistingProperty (src : SourceOntology) (iri : String) :
    Option OWLEntity :=
  match getDeclaredEntityOfType src .OBJECT_PROPERTY iri with
  | some e => some e
  | none =>
      match getDeclaredEntityOfType src .ANNOTATION_PROPERTY iri with
      | some e => some e
      | none => getDeclaredEntityOfType src .DATA_PROPERTY iri

/-- Embeds `Ontology.getExistingEntity`: a class first, then the three property
kinds.  Named individuals are not searched. -/
def getExistingEntity (src : SourceOntology) (iri : String) :
    Option OWLEntity :=
  match getDeclaredEntityOfType src .CLASS iri with
  | some e => some e
  | none => getExistingProperty src iri

/-- Embeds `Ontology.getExistingAnnotationProperty` on the source ontology. -/
def getExistingAnnotationPropertySrc (src : SourceOntology) (iri : String) :
    Option OWLEntity :=
  getDeclaredEntityOfType src .ANNOTATION_PROPERTY iri

/-!
## The single-entity extractor (`_extractSingleEntities`)

The target module is an OWL API ontology, i.e. a set of axioms; it is
embedded as a duplicate-free axiom list.  `target.getExistingAnnotationProperty`
searches the target's imports closure, which for the freshly created module
is the module itself.
-/

/-- Embeds `target.getExistingAnnotationProperty(prop_iri) != None` for the target
module: the module itself (its only imports-closure member) holds a
declaration axiom for the annotation property. -/
def targetHasAnnProp (target : List Axiom) (propIRI : String) : Bool :=
  (getDeclarationAxioms target ⟨.ANNOTATION_PROPERTY, propIRI⟩).length > 0

/-- The body of the `for annot_axiom in annot_axioms` loop of
`_extractSingleEntities`, acting on the state (target axiom set, work
signature): add the annotation axiom to the target; unless its property is
`rdfs:label`, or the property is already declared in the target, look the
property up in the source and, when it exists there (built-ins have no
declaration axiom and do not exist), add its entity to the work
signature. -/
def processAnnotationAxiom (src : SourceOntology)
    (st : List Axiom × List OWLEntity) (annotAx : Axiom) :
    List Axiom × List OWLEntity :=
  let target := addToSet st.1 annotAx
  match annotAx with
  | .annotationAssertion prop _ _ =>
      if prop = rdfsLabelIRI then (target, st.2)
      else if targetHasAnnProp target prop then (target, st.2)
      else
        match getExistingAnnotationPropertySrc src prop with
        | some annotEnt => (target, addToSet st.2 annotEnt)
        | none => (target, st.2)
  | _ => (target, st.2)

/-- The declaration axioms for an entity found anywhere in the source's
imports closure (the `for ont in ontset` declaration loop). -/
def declarationAxiomsInClosure (src : SourceOntology) (e : OWLEntity) :
    List Axiom :=
  (src.importsClosure.map (fun axs => getDeclarationAxioms axs e)).flatten

/-- The annotation assertion axioms about a subject IRI found anywhere in
the source's imports closure (the `for ont in ontset` annotation loop). -/
def annotationAxiomsInClosure (src : SourceOntology) (subjectIRI : String) :
    List Axiom :=
  (src.importsClosure.map
    (fun axs => getAnnotationAssertionAxioms axs subjectIRI)).flatten

/-- Embeds `_extractSingleEntities`: the `while len(signature) > 0` work-set loop,
with `signature.pop()` determinized as popping the head and an explicit
fuel bound (`none` = fuel ran out).  For each popped entity, its declaration
axioms from the whole imports closure are copied into the target, then each
of its annotation axioms is processed by `processAnnotationAxiom`.  Returns
the final target axiom set together with the list of processed entities
(ghost information used only to state theorems; the Python routine mutates
`target` in place and drains `signature`). -/
def extractSingleEntitiesLoop (src : SourceOntology) :
    Nat → List OWLEntity → List Axiom →
    Option (List Axiom × List OWLEntity)
  | _, [], target => some (target, [])
  | 0, _ :: _, _ => none
  | fuel + 1, owlent :: sigrest, target =>
      let target1 := (declarationAxiomsInClosure src owlent).foldl addToSet
        target
      let st := (annotationAxiomsInClosure src owlent.iri).foldl
        (processAnnotationAxiom src) (target1, sigrest)
      (extractSingleEntitiesLoop src fuel st.2 st.1).map
        (fun r => (r.1, owlent :: r.2))

/-!
## Properties of the annotation-processing fold
-/

theorem getDeclarationAxioms_mem_iff {axs : List Axiom} {e : OWLEntity}
    {ax : Axiom} :
    ax ∈ getDeclarationAxioms axs e ↔ ax ∈ axs ∧ ax = .declaration e := by
  unfold getDeclarationAxioms
  rw [List.mem_filter]
  constructor
  · intro ⟨h1, h2⟩
    refine ⟨h1, ?_⟩
    cases ax <;> simp_all
  · intro ⟨h1, h2⟩
    subst h2
    exact ⟨h1, by simp⟩

theorem getAnnotationAssertionAxioms_subset {axs : List Axiom}
    {subjectIRI : String} {ax : Axiom}
    (h : ax ∈ getAnnotationAssertionAxioms axs subjectIRI) : ax ∈ axs :=
  (List.mem_filter.mp h).1

theorem mem_declarationAxiomsInClosure {src : SourceOntology} {e : OWLEntity}
    {ax : Axiom} :
    ax ∈ declarationAxiomsInClosure src e ↔
      ∃ axs ∈ src.importsClosure, ax ∈ getDeclarationAxioms axs e := by
  unfold declarationAxiomsInClosure
  simp [List.mem_flatten]

theorem mem_annotationAxiomsInClosure {src : SourceOntology}
    {subjectIRI : String} {ax : Axiom} :
    ax ∈ annotationAxiomsInClosure src subjectIRI ↔
      ∃ axs ∈ src.importsClosure,
        ax ∈ getAnnotationAssertionAxioms axs subjectIRI := by
  unfold annotationAxiomsInClosure
  simp [List.mem_flatten]

theorem mem_of_targetHasAnnProp {t : List Axiom} {p : String}
    (h : targetHasAnnProp t p = true) :
    Axiom.declaration ⟨.ANNOTATION_PROPERTY, p⟩ ∈ t := by
  unfold targetHasAnnProp at h
  have hlen : 0 < (getDeclarationAxioms t ⟨.ANNOTATION_PROPERTY, p⟩).length :=
    of_decide_eq_true h
  obtain ⟨ax, hax⟩ := List.exists_mem_of_length_pos hlen
  obtain ⟨hmem, rfl⟩ := getDeclarationAxioms_mem_iff.mp hax
  exact hmem

theorem getExistingAnnPropSrc_some {src : SourceOntology} {p : String}
    {ent : OWLEntity}
    (h : getExistingAnnotationPropertySrc src p = some ent) :
    ent = ⟨.ANNOTATION_PROPERTY, p⟩ ∧
      Axiom.declaration ent ∈ declarationAxiomsInClosure src ent := by
  unfold getExistingAnnotationPropertySrc getDeclaredEntityOfType at h
  by_cases hc : src.importsClosure.any
      (fun axs =>
        (getDeclarationAxioms axs ⟨.ANNOTATION_PROPERTY, p⟩).length > 0)
  · rw [if_pos hc] at h
    obtain rfl : ent = ⟨.ANNOTATION_PROPERTY, p⟩ := by
      cases h
      rfl
    refine ⟨rfl, ?_⟩
    obtain ⟨axs, haxs, hlen⟩ := List.any_eq_true.mp hc
    refine mem_declarationAxiomsInClosure.mpr ⟨axs, haxs, ?_⟩
    have hlen' : 0 <
        (getDeclarationAxioms axs ⟨.ANNOTATION_PROPERTY, p⟩).length :=
      of_decide_eq_true hlen
    obtain ⟨ax, hax⟩ := List.exists_mem_of_length_pos hlen'
    obtain ⟨_, rfl⟩ := getDeclarationAxioms_mem_iff.mp hax
    exact hax
  · rw [if_neg hc] at h
    cases h

theorem processAnnotationAxiom_fst (src : SourceOntology)
    (st : List Axiom × List OWLEntity) (ax : Axiom) :
    (processAnnotationAxiom src st ax).1 = addToSet st.1 ax := by
  unfold processAnnotationAxiom
  cases ax <;> try rfl
  dsimp only
  split_ifs <;> try rfl
  split <;> rfl

theorem processAnnotationAxiom_snd_mono (src : SourceOntology)
    (st : List Axiom × List OWLEntity) (ax : Axiom) :
    ∀ x ∈ st.2, x ∈ (processAnnotationAxiom src st ax).2 := by
  intro x hx
  unfold processAnnotationAxiom
  cases ax <;> try exact hx
  dsimp only
  split_ifs <;> try exact hx
  split
  · exact subset_addToSet _ _ x hx
  · exact hx

theorem processAnnotationAxiom_closure (src : SourceOntology)
    (st : List Axiom × List OWLEntity) (p s v : String) (ent : OWLEntity)
    (hlabel : ¬p = rdfsLabelIRI)
    (hsrc : getExistingAnnotationPropertySrc src p = some ent) :
    Axiom.declaration ⟨.ANNOTATION_PROPERTY, p⟩ ∈
        (processAnnotationAxiom src st (.annotationAssertion p s v)).1 ∨
      ent ∈ (processAnnotationAxiom src st (.annotationAssertion p s v)).2 := by
  unfold processAnnotationAxiom
  dsimp only
  rw [if_neg hlabel]
  by_cases htgt :
      targetHasAnnProp (addToSet st.1 (.annotationAssertion p s v)) p = true
  · rw [if_pos htgt]
    exact Or.inl (mem_of_targetHasAnnProp htgt)
  · rw [if_neg htgt, hsrc]
    exact Or.inr (self_mem_addToSet _ _)

theorem processAnnotationAxiom_fold_fst_mono (src : SourceOntology) :
    ∀ (l : List Axiom) (st : List Axiom × List OWLEntity),
      ∀ x ∈ st.1, x ∈ (l.foldl (processAnnotationAxiom src) st).1
  | [], _, _, hx => hx
  | ax :: l, st, x, hx => by
      apply processAnnotationAxiom_fold_fst_mono src l
        (processAnnotationAxiom src st ax) x
      rw [processAnnotationAxiom_fst]
      exact subset_addToSet _ _ x hx

theorem processAnnotationAxiom_fold_snd_mono (src : SourceOntology) :
    ∀ (l : List Axiom) (st : List Axiom × List OWLEntity),
      ∀ x ∈ st.2, x ∈ (l.foldl (processAnnotationAxiom src) st).2
  | [], _, _, hx => hx
  | ax :: l, st, x, hx =>
      processAnnotationAxiom_fold_snd_mono src l
        (processAnnotationAxiom src st ax) x
        (processAnnotationAxiom_snd_mono src st ax x hx)

theorem processAnnotationAxiom_fold_mem (src : SourceOntology) :
    ∀ (l : List Axiom) (st : List Axiom × List OWLEntity),
      ∀ ax ∈ l, ax ∈ (l.foldl (processAnnotationAxiom src) st).1
  | a :: l, st, ax, hax => by
      rcases hax with _ | hax
      · apply processAnnotationAxiom_fold_fst_mono src l
          (processAnnotationAxiom src st a) a
        rw [processAnnotationAxiom_fst]
        exact self_mem_addToSet _ _
      · exact processAnnotationAxiom_fold_mem src l
          (processAnnotationAxiom src st a) ax (by assumption)

theorem processAnnotationAxiom_fold_fst_nodup (src : SourceOntology) :
    ∀ (l : List Axiom) (st : List Axiom × List OWLEntity),
      st.1.Nodup → (l.foldl (processAnnotationAxiom src) st).1.Nodup
  | [], _, h => h
  | ax :: l, st, h => by
      apply processAnnotationAxiom_fold_fst_nodup src l
        (processAnnotationAxiom src st ax)
      rw [processAnnotationAxiom_fst]
      exact addToSet_nodup h ax

theorem processAnnotationAxiom_fold_closure (src : SourceOntology) :
    ∀ (l : List Axiom) (st : List Axiom × List OWLEntity)
      (p s v : String) (ent : OWLEntity),
      Axiom.annotationAssertion p s v ∈ l →
      ¬p = rdfsLabelIRI →
      getExistingAnnotationPropertySrc src p = some ent →
      Axiom.declaration ⟨.ANNOTATION_PROPERTY, p⟩ ∈
          (l.foldl (processAnnotationAxiom src) st).1 ∨
        ent ∈ (l.foldl (processAnnotationAxiom src) st).2
  | a :: l, st, p, s, v, ent, hmem, hlabel, hsrc => by
      rcases hmem with _ | hmem
      · rcases processAnnotationAxiom_closure src st p s v ent hlabel hsrc
          with h | h
        · exact Or.inl (processAnnotationAxiom_fold_fst_mono src l _ _ h)
        · exact Or.inr (processAnnotationAxiom_fold_snd_mono src l _ _ h)
      · exact processAnnotationAxiom_fold_closure src l
          (processAnnotationAxiom src st a) p s v ent (by assumption)
          hlabel hsrc

/-!
## The main specification of the single-entity extractor

When the work loop completes, every processed entity has all of its
declaration axioms and annotation axioms from the imports closure in the
final target, and for every annotation of a processed entity whose property
is not `rdfs:label` and exists (is declared) in the source, a declaration of
that annotation property is in the final target.  The processed list is
closed under the discovered annotation properties, so the last conclusion
is the transitive annotation-property closure.
-/

theorem extractSingleEntitiesLoop_spec (src : SourceOntology) :
    ∀ (fuel : Nat) (sig : List OWLEntity) (target tf : List Axiom)
      (proc : List OWLEntity),
      extractSingleEntitiesLoop src fuel sig target = some (tf, proc) →
      (∀ x ∈ target, x ∈ tf) ∧
      (∀ e ∈ sig, e ∈ proc) ∧
      (∀ e ∈ proc,
        (∀ ax ∈ declarationAxiomsInClosure src e, ax ∈ tf) ∧
        (∀ ax ∈ annotationAxiomsInClosure src e.iri, ax ∈ tf) ∧
        (∀ p s v,
          Axiom.annotationAssertion p s v ∈
            annotationAxiomsInClosure src e.iri →
          ¬p = rdfsLabelIRI →
          ∀ ent, getExistingAnnotationPropertySrc src p = some ent →
          Axiom.declaration ⟨.ANNOTATION_PROPERTY, p⟩ ∈ tf)) := by
  intro fuel
  induction fuel with
  | zero =>
      intro sig target tf proc h
      cases sig with
      | nil =>
          replace h : some ((target, []) : List Axiom × List OWLEntity) =
              some (tf, proc) := h
          injection h with h'
          injection h' with h1 h2
          subst h1
          subst h2
          exact ⟨fun x hx => hx, by simp, by simp⟩
      | cons e rest =>
          replace h : (none : Option (List Axiom × List OWLEntity)) =
              some (tf, proc) := h
          cases h
  | succ n ih =>
      intro sig target tf proc h
      cases sig with
      | nil =>
          replace h : some ((target, []) : List Axiom × List OWLEntity) =
              some (tf, proc) := h
          injection h with h'
          injection h' with h1 h2
          subst h1
          subst h2
          exact ⟨fun x hx => hx, by simp, by simp⟩
      | cons owlent sigrest =>
          replace h :
              (extractSingleEntitiesLoop src n
                ((annotationAxiomsInClosure src owlent.iri).foldl
                  (processAnnotationAxiom src)
                  ((declarationAxiomsInClosure src owlent).foldl addToSet
                    target, sigrest)).2
                ((annotationAxiomsInClosure src owlent.iri).foldl
                  (processAnnotationAxiom src)
                  ((declarationAxiomsInClosure src owlent).foldl addToSet
                    target, sigrest)).1).map
                  (fun r => (r.1, owlent :: r.2)) = some (tf, proc) := h
          obtain ⟨⟨tf', proc'⟩, hrec, heq⟩ := Option.map_eq_some'.mp h
          obtain ⟨h1, h2⟩ : tf' = tf ∧ owlent :: proc' = proc := by
            injection heq with ha hb
            exact ⟨ha, hb⟩
          subst h1
          subst h2
          obtain ⟨ih1, ih2, ih3⟩ := ih _ _ _ _ hrec
          set target1 : List Axiom :=
            (declarationAxiomsInClosure src owlent).foldl addToSet target
            with htarget1
          set stp : List Axiom × List OWLEntity :=
            (annotationAxiomsInClosure src owlent.iri).foldl
              (processAnnotationAxiom src) (target1, sigrest) with hstp
          refine ⟨?_, ?_, ?_⟩
          · intro x hx
            apply ih1
            apply processAnnotationAxiom_fold_fst_mono src _ (target1, sigrest)
            exact foldl_addToSet_subset _ target x hx
          · intro e he
            rcases he with _ | he
            · exact List.mem_cons_self _ _
            · apply List.mem_cons_of_mem
              apply ih2
              apply processAnnotationAxiom_fold_snd_mono src _ (target1, sigrest)
              assumption
          · intro e he
            rcases he with _ | he
            · refine ⟨?_, ?_, ?_⟩
              · intro ax hax
                apply ih1
                apply processAnnotationAxiom_fold_fst_mono src _
                  (target1, sigrest)
                exact mem_foldl_addToSet _ target ax hax
              · intro ax hax
                apply ih1
                exact processAnnotationAxiom_fold_mem src _
                  (target1, sigrest) ax hax
              · intro p s v hax hlabel ent hsrc
                rcases processAnnotationAxiom_fold_closure src _
                    (target1, sigrest) p s v ent hax hlabel hsrc with hd | hd
                · exact ih1 _ hd
                · obtain ⟨hent, hdecl⟩ := getExistingAnnPropSrc_some hsrc
                  have hproc : ent ∈ proc' := ih2 ent hd
                  have := (ih3 ent hproc).1 _ hdecl
                  rwa [hent] at this
            · exact ih3 e (by assumption)

/-- C3: when the single-entity extraction loop completes, every entity of
the input signature is processed, and every processed entity has its
declaration axioms and all annotation-assertion axioms about it copied into
the target module; for every copied annotation whose predicate is not the
built-in label property and has a declaration in the source graph, a
declaration of that annotation property is also in the module.  The
processed set is closed under discovered annotation properties, so the last
conclusion holds transitively. -/
theorem single_entity_extraction_closure (src : SourceOntology)
    (fuel : Nat) (sig : List OWLEntity) (target tf : List Axiom)
    (proc : List OWLEntity)
    (h : extractSingleEntitiesLoop src fuel sig target = some (tf, proc)) :
    (∀ e ∈ sig, e ∈ proc) ∧
    (∀ e ∈ proc,
      (∀ ax ∈ declarationAxiomsInClosure src e, ax ∈ tf) ∧
      (∀ ax ∈ annotationAxiomsInClosure src e.iri, ax ∈ tf) ∧
      (∀ p s v,
        Axiom.annotationAssertion p s v ∈ annotationAxiomsInClosure src e.iri →
        ¬p = rdfsLabelIRI →
        ∀ ent, getExistingAnnotationPropertySrc src p = some ent →
        Axiom.declaration ⟨.ANNOTATION_PROPERTY, p⟩ ∈ tf)) :=
  ⟨(extractSingleEntitiesLoop_spec src fuel sig target tf proc h).2.1,
   (extractSingleEntitiesLoop_spec src fuel sig target tf proc h).2.2⟩

/-- The class `ex:Foo`. -/
def fooEnt : OWLEntity := ⟨.CLASS, "http://example.org/Foo"⟩

/-- The custom annotation property `ex:hasSource`. -/
def hasSourceEnt : OWLEntity :=
  ⟨.ANNOTATION_PROPERTY, "http://example.org/hasSource"⟩

/-- The annotation of `ex:Foo` by `ex:hasSource` with value "bar". -/
def annotFooHasSource : Axiom :=
  .annotationAssertion "http://example.org/hasSource"
    "http://example.org/Foo" "bar"

/-- A source ontology declaring `ex:Foo` and `ex:hasSource` and annotating
`ex:Foo` with `ex:hasSource "bar"`. -/
def srcFoo : SourceOntology where
  rootAxioms :=
    [.declaration fooEnt, .declaration hasSourceEnt, annotFooHasSource]
  importedAxioms := []
  ontologyIRI := some "http://example.org/onto"
  versionIRI := none

/-- The module axioms produced by single-entity extraction of `ex:Foo`. -/
def fooModuleAxioms : List Axiom :=
  [.declaration fooEnt, annotFooHasSource, .declaration hasSourceEnt]

/-- Witness for C3: extracting `ex:Foo` under the Single policy yields a
module containing the declaration of `ex:Foo`, the annotation-assertion
axiom, and a declaration of `ex:hasSource`. -/
theorem single_entity_extraction_closure_witness :
    Axiom.declaration fooEnt ∈ fooModuleAxioms ∧
    annotFooHasSource ∈ fooModuleAxioms ∧
    Axiom.declaration hasSourceEnt ∈ fooModuleAxioms := by
  have h : extractSingleEntitiesLoop srcFoo 5 [fooEnt] [] =
      some (fooModuleAxioms, [fooEnt, hasSourceEnt]) := by decide
  obtain ⟨-, h2⟩ := single_entity_extraction_closure srcFoo 5 [fooEnt] []
    fooModuleAxioms [fooEnt, hasSourceEnt] h
  have hfoo := h2 fooEnt (by decide)
  have hsrcp := h2 hasSourceEnt (by decide)
  refine ⟨?_, ?_, ?_⟩
  · exact hfoo.1 (Axiom.declaration fooEnt) (by decide)
  · exact hfoo.2.1 annotFooHasSource (by decide)
  · exact hfoo.2.2 "http://example.org/hasSource" "http://example.org/Foo"
      "bar" (by decide) (by decide) hasSourceEnt (by decide)

/-!
## The signature registry (`ModuleExtractor.__init__` / `clearSignatures` /
`addEntity`)
-/

/-- The supported extraction methods (`_ExtractMethodsStruct`). -/
inductive ExtractionMethod where
  | LOCALITY
  | SINGLE
  | HIERARCHY
  deriving DecidableEq, Repr

/-- The `self.signatures` dictionary of a `ModuleExtractor`: one entity set
per extraction method. -/
structure Signatures where
  sigLocality : List OWLEntity
  sigSingle : List OWLEntity
  sigHierarchy : List OWLEntity
  deriving DecidableEq, Repr

/-- Embeds `clearSignatures`: every signature set becomes empty (also the state
produced by `__init__`). -/
def clearSignatures : Signatures :=
  { sigLocality := [], sigSingle := [], sigHierarchy := [] }

/-- Embeds `addEntity(entity_id, method, include_branch)`: resolve the identifier
with `getExistingEntity`; on failure raise (modelled as `none`) before any
signature set is touched; on success add the resolved entity's OWL API
object to the set for the method.  The `include_branch` flag is accepted
but never read by the body. -/
def addEntity (src : SourceOntology) (sigs : Signatures) (entityID : String)
    (method : ExtractionMethod) (includeBranch : Bool) : Option Signatures :=
  match getExistingEntity src entityID with
  | none => none
  | some entity =>
      some
        (match method with
          | .LOCALITY =>
              { sigs with sigLocality := addToSet sigs.sigLocality entity }
          | .SINGLE =>
              { sigs with sigSingle := addToSet sigs.sigSingle entity }
          | .HIERARCHY =>
              { sigs with sigHierarchy := addToSet sigs.sigHierarchy entity })

/-!
## The target module and the orchestrator (`extractModule`)
-/

/-- The IRI of the `dc:source` annotation property
(`Ontology.SOURCE_PROP_IRI`). -/
def SOURCE_PROP_IRI : String := "http://purl.org/dc/elements/1.1/source"

/-- The target module: a freshly created ontology with an ID, a set of
axioms, and a set of ontology-level annotations (property IRI, value). -/
structure Module where
  moduleIRI : String
  axioms : List Axiom
  ontAnnots : List (String × String)
  deriving DecidableEq, Repr

/-- Modelled from the spec: `Ontology.addEntityAxiom`, called on the target
module by `extractModule` and `_extractSingleEntities`, is part of
ontopilot's `ontology.py`, which is not under `src/` (only the older
sibling `addTermAxiom` is, which applies an OWL API `AddAxiom` change).
Per spec section 4.5 the module's insertion primitive is idempotent set
insertion: re-adding an axiom already present is a no-op. -/
def Module.addEntityAxiom (m : Module) (ax : Axiom) : Module :=
  { m with axioms := addToSet m.axioms ax }

/-- Embeds `Ontology.setOntologySource(source_iri)`: add a `dc:source` ontology
annotation carrying the source IRI (an OWL API `AddOntologyAnnotation`
change; ontology annotations form a set). -/
def Module.setOntologySource (m : Module) (sourceIRI : String) : Module :=
  { m with ontAnnots := addToSet m.ontAnnots (SOURCE_PROP_IRI, sourceIRI) }

/-- The syntactic-locality phase of `extractModule`: the freshly created
empty module (`createOntology` + `setOntologyID`), into which the axioms of
the external locality extraction are copied only when the Locality
signature set is non-empty (the OWL API module extractor would produce a
non-empty module even for an empty signature set). -/
def localityModule (slme : List OWLEntity → List Axiom) (sigs : Signatures)
    (modIRI : String) : Module :=
  let modont0 : Module := { moduleIRI := modIRI, axioms := [], ontAnnots := [] }
  if sigs.sigLocality.length > 0 then
    (slme sigs.sigLocality).foldl Module.addEntityAxiom modont0
  else modont0

/-- The provenance choice of `extractModule`: the version IRI when present,
else the ontology IRI when present, else nothing. -/
def sourceIRIForProvenance (src : SourceOntology) : Option String :=
  match src.versionIRI with
  | some v => some v
  | none => src.ontologyIRI

/-- The provenance-stamping tail of `extractModule`: call
`setOntologySource` exactly when a source IRI was found. -/
def stampProvenance (src : SourceOntology) (m : Module) : Module :=
  match sourceIRIForProvenance src with
  | some s => m.setOntologySource s
  | none => m

/-- Embeds `ModuleExtractor.extractModule(mod_iri)`.  The external
`SyntacticLocalityModuleExtractor.extract` is the parameter `slme`; the
guard in `localityModule` skips it entirely when the Locality signature set
is empty.  The hierarchy work loop and the single-entity work loop drain
the (shared, mutated) Hierarchy and Single signature sets, so the returned
registry state has those sets empty while the Locality set is untouched;
the two loops carry explicit fuel, and `none` models fuel exhaustion. -/
def extractModule (src : SourceOntology)
    (slme : List OWLEntity → List Axiom) (sigs : Signatures)
    (modIRI : String) (hierFuel singleFuel : Nat) :
    Option (Module × Signatures) :=
  match getEntitiesInHierarchies src.rootAxioms hierFuel sigs.sigHierarchy
      [] [] with
  | none => none
  | some (hierset, axiomset) =>
      (extractSingleEntitiesLoop src singleFuel
          (addAllToSet sigs.sigSingle hierset)
          (localityModule slme sigs modIRI).axioms).map
        (fun r =>
          (stampProvenance src
            (axiomset.foldl Module.addEntityAxiom
              { localityModule slme sigs modIRI with axioms := r.1 }),
           { sigs with sigHierarchy := [], sigSingle := [] }))

/-!
## Assembly lemmas
-/

theorem foldl_addEntityAxiom_axioms (l : List Axiom) :
    ∀ m : Module, (l.foldl Module.addEntityAxiom m).axioms =
      l.foldl addToSet m.axioms := by
  induction l with
  | nil => intro m; rfl
  | cons ax l ih =>
      intro m
      rw [List.foldl_cons, List.foldl_cons, ih]
      rfl

theorem foldl_addEntityAxiom_ontAnnots (l : List Axiom) :
    ∀ m : Module, (l.foldl Module.addEntityAxiom m).ontAnnots =
      m.ontAnnots := by
  induction l with
  | nil => intro m; rfl
  | cons ax l ih =>
      intro m
      rw [List.foldl_cons, ih]
      rfl

theorem stampProvenance_axioms (src : SourceOntology) (m : Module) :
    (stampProvenance src m).axioms = m.axioms := by
  unfold stampProvenance
  cases sourceIRIForProvenance src <;> rfl

theorem localityModule_ontAnnots (slme : List OWLEntity → List Axiom)
    (sigs : Signatures) (modIRI : String) :
    (localityModule slme sigs modIRI).ontAnnots = [] := by
  unfold localityModule
  by_cases h : sigs.sigLocality.length > 0
  · rw [if_pos h, foldl_addEntityAxiom_ontAnnots]
  · rw [if_neg h]

/-- Destructuring a successful `extractModule` run into its phases. -/
theorem extractModule_some {src : SourceOntology}
    {slme : List OWLEntity → List Axiom} {sigs : Signatures}
    {modIRI : String} {hierFuel singleFuel : Nat} {m : Module}
    {sigs' : Signatures}
    (h : extractModule src slme sigs modIRI hierFuel singleFuel =
      some (m, sigs')) :
    ∃ hierset axiomset tf proc,
      getEntitiesInHierarchies src.rootAxioms hierFuel sigs.sigHierarchy
        [] [] = some (hierset, axiomset) ∧
      extractSingleEntitiesLoop src singleFuel
        (addAllToSet sigs.sigSingle hierset)
        (localityModule slme sigs modIRI).axioms = some (tf, proc) ∧
      m = stampProvenance src
        (axiomset.foldl Module.addEntityAxiom
          { localityModule slme sigs modIRI with axioms := tf }) ∧
      sigs' = { sigs with sigHierarchy := [], sigSingle := [] } := by
  unfold extractModule at h
  cases hh : getEntitiesInHierarchies src.rootAxioms hierFuel
      sigs.sigHierarchy [] [] with
  | none =>
      rw [hh] at h
      cases h
  | some pr =>
      rw [hh] at h
      obtain ⟨hierset, axiomset⟩ := pr
      obtain ⟨⟨tf, proc⟩, hrec, heq⟩ := Option.map_eq_some'.mp h
      obtain ⟨h1, h2⟩ : stampProvenance src
          (axiomset.foldl Module.addEntityAxiom
            { localityModule slme sigs modIRI with axioms := tf }) = m ∧
          { sigs with sigHierarchy := [], sigSingle := [] } = sigs' := by
        injection heq with ha hb
        exact ⟨ha, hb⟩
      exact ⟨hierset, axiomset, tf, proc, rfl, hrec, h1.symm, h2.symm⟩

/-- The target axiom set stays duplicate-free through the single-entity
loop. -/
theorem extractSingleEntitiesLoop_nodup (src : SourceOntology) :
    ∀ (fuel : Nat) (sig : List OWLEntity) (target tf : List Axiom)
      (proc : List OWLEntity),
      extractSingleEntitiesLoop src fuel sig target = some (tf, proc) →
      target.Nodup → tf.Nodup := by
  intro fuel
  induction fuel with
  | zero =>
      intro sig target tf proc h hnd
      cases sig with
      | nil =>
          replace h : some ((target, []) : List Axiom × List OWLEntity) =
              some (tf, proc) := h
          injection h with h'
          injection h' with h1 h2
          subst h1
          exact hnd
      | cons e rest =>
          replace h : (none : Option (List Axiom × List OWLEntity)) =
              some (tf, proc) := h
          cases h
  | succ n ih =>
      intro sig target tf proc h hnd
      cases sig with
      | nil =>
          replace h : some ((target, []) : List Axiom × List OWLEntity) =
              some (tf, proc) := h
          injection h with h'
          injection h' with h1 h2
          subst h1
          exact hnd
      | cons owlent sigrest =>
          replace h :
              (extractSingleEntitiesLoop src n
                ((annotationAxiomsInClosure src owlent.iri).foldl
                  (processAnnotationAxiom src)
                  ((declarationAxiomsInClosure src owlent).foldl addToSet
                    target, sigrest)).2
                ((annotationAxiomsInClosure src owlent.iri).foldl
                  (processAnnotationAxiom src)
                  ((declarationAxiomsInClosure src owlent).foldl addToSet
                    target, sigrest)).1).map
                  (fun r => (r.1, owlent :: r.2)) = some (tf, proc) := h
          obtain ⟨⟨tf', proc'⟩, hrec, heq⟩ := Option.map_eq_some'.mp h
          obtain ⟨h1, -⟩ : tf' = tf ∧ owlent :: proc' = proc := by
            injection heq with ha hb
            exact ⟨ha, hb⟩
          subst h1
          apply ih _ _ _ _ hrec
          apply processAnnotationAxiom_fold_fst_nodup src _
            ((declarationAxiomsInClosure src owlent).foldl addToSet target,
              sigrest)
          exact foldl_addToSet_nodup _ hnd

/-- The axiom set of the finished module is duplicate-free. -/
theorem extractModule_axioms_nodup {src : SourceOntology}
    {slme : List OWLEntity → List Axiom} {sigs : Signatures}
    {modIRI : String} {hierFuel singleFuel : Nat} {m : Module}
    {sigs' : Signatures}
    (h : extractModule src slme sigs modIRI hierFuel singleFuel =
      some (m, sigs')) : m.axioms.Nodup := by
  obtain ⟨hierset, axiomset, tf, proc, hh, hs, hm, -⟩ := extractModule_some h
  have hloc : (localityModule slme sigs modIRI).axioms.Nodup := by
    unfold localityModule
    by_cases hl : sigs.sigLocality.length > 0
    · rw [if_pos hl, foldl_addEntityAxiom_axioms]
      exact foldl_addToSet_nodup _ List.nodup_nil
    · rw [if_neg hl]
      exact List.nodup_nil
  have htf : tf.Nodup :=
    extractSingleEntitiesLoop_nodup src _ _ _ _ _ hs hloc
  rw [hm, stampProvenance_axioms, foldl_addEntityAxiom_axioms]
  exact foldl_addToSet_nodup _ htf

/-!
## Claim theorems about `extractModule`
-/

/-- C4: in the module returned by `extractModule`, no entity receives more
than one declaration axiom (in particular an entity requested under both
the Hierarchy policy, as an ancestor, and the Single policy gets exactly
one declaration axiom — see the witness). -/
theorem extract_module_declaration_unique (src : SourceOntology)
    (slme : List OWLEntity → List Axiom) (sigs : Signatures)
    (modIRI : String) (hierFuel singleFuel : Nat) (m : Module)
    (sigs' : Signatures)
    (h : extractModule src slme sigs modIRI hierFuel singleFuel =
      some (m, sigs')) (e : OWLEntity) :
    m.axioms.count (Axiom.declaration e) ≤ 1 :=
  List.nodup_iff_count_le_one.mp (extractModule_axioms_nodup h)
    (Axiom.declaration e)

/-- The class `ex:Sub`, requested under the Hierarchy policy. -/
def subEnt : OWLEntity := ⟨.CLASS, "http://example.org/Sub"⟩

/-- The class `ex:Bar`, ancestor of `ex:Sub`, also requested under the
Single policy. -/
def barEnt : OWLEntity := ⟨.CLASS, "http://example.org/Bar"⟩

/-- The subsumption axiom Sub ⊑ Bar. -/
def axSubBar : Axiom :=
  .subClassOf (.named "http://example.org/Sub")
    (.named "http://example.org/Bar")

/-- A source ontology with Sub ⊑ Bar and both an ontology IRI and a version
IRI. -/
def srcBar : SourceOntology where
  rootAxioms := [.declaration subEnt, .declaration barEnt, axSubBar]
  importedAxioms := []
  ontologyIRI := some "http://example.org/onto"
  versionIRI := some "http://example.org/1.0"

/-- A registry requesting Sub under Hierarchy and Bar under Single. -/
def sigsBar : Signatures :=
  { sigLocality := [], sigSingle := [barEnt], sigHierarchy := [subEnt] }

/-- A locality algorithm returning nothing (never invoked in the Bar
scenario: the Locality set is empty). -/
def slmeNone : List OWLEntity → List Axiom := fun _ => []

/-- The module produced by the Bar scenario. -/
def mBar : Module where
  moduleIRI := "http://example.org/mod"
  axioms := [.declaration barEnt, .declaration subEnt, axSubBar]
  ontAnnots := [(SOURCE_PROP_IRI, "http://example.org/1.0")]

/-- The drained registry state after the Bar scenario. -/
def sigsPost : Signatures :=
  { sigLocality := [], sigSingle := [], sigHierarchy := [] }

/-- Witness for C4: `ex:Bar`, requested under both the Hierarchy policy (as
an ancestor of `ex:Sub`) and the Single policy, appears in the final module
with exactly one declaration axiom. -/
theorem extract_module_declaration_unique_witness :
    extractModule srcBar slmeNone sigsBar "http://example.org/mod" 5 9 =
      some (mBar, sigsPost) ∧
    mBar.axioms.count (Axiom.declaration barEnt) = 1 ∧
    mBar.axioms.count (Axiom.declaration barEnt) ≤ 1 := by
  refine ⟨by decide, by decide, ?_⟩
  exact extract_module_declaration_unique srcBar slmeNone sigsBar
    "http://example.org/mod" 5 9 mBar sigsPost (by decide) barEnt

/-- If two locality algorithms agree on the Locality signature set, the
locality phase produces the same module. -/
theorem localityModule_congr {f g : List OWLEntity → List Axiom}
    (sigs : Signatures) (modIRI : String)
    (hfg : f sigs.sigLocality = g sigs.sigLocality) :
    localityModule f sigs modIRI = localityModule g sigs modIRI := by
  unfold localityModule
  rw [hfg]

/-- C5: if the Locality-policy signature set is empty, the external
locality algorithm contributes nothing — the result does not depend on it
at all (first conjunct); in general the result depends on the algorithm
only through its value on the full Locality set, i.e. it is consulted
exactly with that set (second conjunct); and when the set is non-empty,
every axiom the algorithm returns for it is in the module (third
conjunct). -/
theorem extract_module_locality_guard (src : SourceOntology)
    (sigs : Signatures) (modIRI : String) (hierFuel singleFuel : Nat) :
    (sigs.sigLocality = [] →
      ∀ f g : List OWLEntity → List Axiom,
        extractModule src f sigs modIRI hierFuel singleFuel =
          extractModule src g sigs modIRI hierFuel singleFuel) ∧
    (∀ f g : List OWLEntity → List Axiom,
      f sigs.sigLocality = g sigs.sigLocality →
        extractModule src f sigs modIRI hierFuel singleFuel =
          extractModule src g sigs modIRI hierFuel singleFuel) ∧
    (∀ (f : List OWLEntity → List Axiom) (m : Module) (sigs' : Signatures),
      extractModule src f sigs modIRI hierFuel singleFuel =
        some (m, sigs') →
      ∀ ax ∈ f sigs.sigLocality, sigs.sigLocality ≠ [] → ax ∈ m.axioms) := by
  have hdep : ∀ f g : List OWLEntity → List Axiom,
      f sigs.sigLocality = g sigs.sigLocality →
        extractModule src f sigs modIRI hierFuel singleFuel =
          extractModule src g sigs modIRI hierFuel singleFuel := by
    intro f g hfg
    unfold extractModule
    rw [localityModule_congr sigs modIRI hfg]
  refine ⟨?_, hdep, ?_⟩
  · intro hempty f g
    unfold extractModule
    have hcong : localityModule f sigs modIRI = localityModule g sigs modIRI := by
      unfold localityModule
      rw [hempty]
      rfl
    rw [hcong]
  · intro f m sigs' h ax hax hne
    obtain ⟨hierset, axiomset, tf, proc, hh, hs, hm, -⟩ := extractModule_some h
    have hloc : ax ∈ (localityModule f sigs modIRI).axioms := by
      unfold localityModule
      rw [if_pos (List.length_pos.mpr hne), foldl_addEntityAxiom_axioms]
      exact mem_foldl_addToSet _ _ ax hax
    have htf : ax ∈ tf :=
      (extractSingleEntitiesLoop_spec src _ _ _ _ _ hs).1 ax hloc
    rw [hm, stampProvenance_axioms, foldl_addEntityAxiom_axioms]
    exact foldl_addToSet_subset _ _ ax htf

/-- The class `ex:Loc`, requested under the Locality policy. -/
def locEnt : OWLEntity := ⟨.CLASS, "http://example.org/Loc"⟩

/-- A registry with only a Locality request. -/
def sigsLoc : Signatures :=
  { sigLocality := [locEnt], sigSingle := [], sigHierarchy := [] }

/-- A locality algorithm returning one opaque axiom. -/
def slmeLoc : List OWLEntity → List Axiom := fun _ => [.otherAxiom 7]

/-- A locality algorithm returning a different opaque axiom, used to show
that with an empty Locality set the algorithm is irrelevant. -/
def slmeBig : List OWLEntity → List Axiom := fun _ => [.otherAxiom 99]

/-- The module produced by the Locality scenario. -/
def mLoc : Module where
  moduleIRI := "http://example.org/mod"
  axioms := [.otherAxiom 7]
  ontAnnots := [(SOURCE_PROP_IRI, "http://example.org/1.0")]

/-- Witness for C5: with an empty Locality set two arbitrary locality
algorithms give the same module (the guard skipped the algorithm), and with
a non-empty set the algorithm's returned axiom is in the module. -/
theorem extract_module_locality_guard_witness :
    extractModule srcBar slmeBig sigsPost "http://example.org/mod" 1 1 =
      extractModule srcBar slmeNone sigsPost "http://example.org/mod" 1 1 ∧
    extractModule srcBar slmeLoc sigsLoc "http://example.org/mod" 1 1 =
      some (mLoc, sigsLoc) ∧
    Axiom.otherAxiom 7 ∈ mLoc.axioms := by
  refine ⟨(extract_module_locality_guard srcBar sigsPost
      "http://example.org/mod" 1 1).1 rfl slmeBig slmeNone, by decide, ?_⟩
  exact (extract_module_locality_guard srcBar sigsLoc
      "http://example.org/mod" 1 1).2.2 slmeLoc mLoc sigsLoc (by decide)
    (Axiom.otherAxiom 7) (by decide) (by decide)

/-- C6: `extractModule` stamps the module's provenance annotation with the
source ontology's version IRI whenever one is present (never the plain
ontology IRI); only when no version IRI is present does it fall back to the
ontology IRI, and when neither is present no provenance annotation is
added. -/
theorem extract_module_provenance (src : SourceOntology)
    (slme : List OWLEntity → List Axiom) (sigs : Signatures)
    (modIRI : String) (hierFuel singleFuel : Nat) (m : Module)
    (sigs' : Signatures)
    (h : extractModule src slme sigs modIRI hierFuel singleFuel =
      some (m, sigs')) :
    (∀ v, src.versionIRI = some v →
      m.ontAnnots = [(SOURCE_PROP_IRI, v)]) ∧
    (src.versionIRI = none → ∀ o, src.ontologyIRI = some o →
      m.ontAnnots = [(SOURCE_PROP_IRI, o)]) ∧
    (src.versionIRI = none → src.ontologyIRI = none →
      m.ontAnnots = []) := by
  obtain ⟨hierset, axiomset, tf, proc, hh, hs, hm, -⟩ := extractModule_some h
  have hM3 : (axiomset.foldl Module.addEntityAxiom
      { localityModule slme sigs modIRI with axioms := tf }).ontAnnots = [] := by
    rw [foldl_addEntityAxiom_ontAnnots]
    exact localityModule_ontAnnots slme sigs modIRI
  subst hm
  refine ⟨?_, ?_, ?_⟩
  · intro v hv
    unfold stampProvenance sourceIRIForProvenance
    rw [hv]
    show (Module.setOntologySource _ v).ontAnnots = [(SOURCE_PROP_IRI, v)]
    unfold Module.setOntologySource
    show addToSet (axiomset.foldl Module.addEntityAxiom
      { localityModule slme sigs modIRI with axioms := tf }).ontAnnots
        (SOURCE_PROP_IRI, v) = [(SOURCE_PROP_IRI, v)]
    rw [hM3]
    rfl
  · intro hv o ho
    unfold stampProvenance sourceIRIForProvenance
    rw [hv, ho]
    show (Module.setOntologySource _ o).ontAnnots = [(SOURCE_PROP_IRI, o)]
    unfold Module.setOntologySource
    show addToSet (axiomset.foldl Module.addEntityAxiom
      { localityModule slme sigs modIRI with axioms := tf }).ontAnnots
        (SOURCE_PROP_IRI, o) = [(SOURCE_PROP_IRI, o)]
    rw [hM3]
    rfl
  · intro hv ho
    unfold stampProvenance sourceIRIForProvenance
    rw [hv, ho]
    exact hM3

/-- Witness for C6: extracting from a source with version IRI
`http://example.org/1.0` and ontology IRI `http://example.org/onto` yields a
module whose provenance annotation value is the version IRI, and the plain
ontology IRI appears in no provenance annotation. -/
theorem extract_module_provenance_witness :
    extractModule srcBar slmeNone sigsBar "http://example.org/mod" 6 9 =
      some (mBar, sigsPost) ∧
    mBar.ontAnnots = [(SOURCE_PROP_IRI, "http://example.org/1.0")] ∧
    (SOURCE_PROP_IRI, "http://example.org/onto") ∉ mBar.ontAnnots := by
  refine ⟨by decide, ?_, by decide⟩
  exact (extract_module_provenance srcBar slmeNone sigsBar
      "http://example.org/mod" 6 9 mBar sigsPost (by decide)).1
    "http://example.org/1.0" (by decide)

/-- C10: a successful `extractModule` call consumes the signature registry
asymmetrically: afterwards the Hierarchy and Single sets are empty (both
work loops drain them) while the Locality set still holds exactly what it
held before; consequently a second call on the returned registry re-runs
only the locality extraction (its module is the locality module plus the
provenance stamp, and the registry state is unchanged). -/
theorem extract_module_registry_state (src : SourceOntology)
    (slme : List OWLEntity → List Axiom) (sigs : Signatures)
    (modIRI : String) (hierFuel singleFuel : Nat) (m : Module)
    (sigs' : Signatures)
    (h : extractModule src slme sigs modIRI hierFuel singleFuel =
      some (m, sigs')) :
    sigs'.sigLocality = sigs.sigLocality ∧
    sigs'.sigSingle = [] ∧
    sigs'.sigHierarchy = [] ∧
    (∀ (modIRI2 : String) (hf2 sf2 : Nat),
      extractModule src slme sigs' modIRI2 hf2 sf2 =
        some (stampProvenance src (localityModule slme sigs' modIRI2),
          sigs')) := by
  obtain ⟨hierset, axiomset, tf, proc, hh, hs, hm, hsigs⟩ :=
    extractModule_some h
  subst hsigs
  refine ⟨rfl, rfl, rfl, ?_⟩
  intro modIRI2 hf2 sf2
  cases hf2 <;> cases sf2 <;> rfl

/-- Witness for C10: after the Bar scenario the registry is fully drained
except for the (empty) Locality set, and a second call returns just the
locality-plus-provenance module with the registry unchanged. -/
theorem extract_module_registry_state_witness :
    extractModule srcBar slmeNone sigsBar "http://example.org/mod" 7 9 =
      some (mBar, sigsPost) ∧
    sigsPost.sigLocality = sigsBar.sigLocality ∧
    sigsPost.sigSingle = [] ∧
    sigsPost.sigHierarchy = [] ∧
    extractModule srcBar slmeNone sigsPost "http://example.org/mod2" 0 0 =
      some (stampProvenance srcBar
        (localityModule slmeNone sigsPost "http://example.org/mod2"),
        sigsPost) := by
  have h := extract_module_registry_state srcBar slmeNone sigsBar
    "http://example.org/mod" 7 9 mBar sigsPost (by decide)
  exact ⟨by decide, h.1, h.2.1, h.2.2.1, h.2.2.2 "http://example.org/mod2" 0 0⟩

/-!
## Entity resolution of `addEntity` (claims C7 and C9)
-/

theorem getDeclaredEntityOfType_eq_none {src : SourceOntology}
    {t : EntityType} {iri : String} :
    getDeclaredEntityOfType src t iri = none ↔
      ∀ axs ∈ src.importsClosure, getDeclarationAxioms axs ⟨t, iri⟩ = [] := by
  unfold getDeclaredEntityOfType
  by_cases hc : src.importsClosure.any
      (fun axs => (getDeclarationAxioms axs ⟨t, iri⟩).length > 0)
  · rw [if_pos hc]
    constructor
    · intro h
      cases h
    · intro h
      exfalso
      obtain ⟨axs, haxs, hlen⟩ := List.any_eq_true.mp hc
      have hnil := h axs haxs
      rw [hnil] at hlen
      exact absurd (of_decide_eq_true hlen) (by simp)
  · rw [if_neg hc]
    constructor
    · intro _ axs haxs
      by_contra hne
      exact hc (List.any_eq_true.mpr
        ⟨axs, haxs, decide_eq_true (List.length_pos.mpr hne)⟩)
    · intro _
      rfl

/-- Embeds `getExistingEntity` finds nothing exactly when the identifier has no
declaration of any of the four searched kinds (class, object property,
data property, annotation property) anywhere in the imports closure;
named individuals are never searched. -/
theorem getExistingEntity_eq_none {src : SourceOntology} {iri : String} :
    getExistingEntity src iri = none ↔
      ∀ t : EntityType, t ≠ .NAMED_INDIVIDUAL →
        ∀ axs ∈ src.importsClosure,
          getDeclarationAxioms axs ⟨t, iri⟩ = [] := by
  constructor
  · intro h t ht axs haxs
    unfold getExistingEntity getExistingProperty at h
    cases hC : getDeclaredEntityOfType src .CLASS iri with
    | some e => rw [hC] at h; cases h
    | none =>
      rw [hC] at h
      cases hO : getDeclaredEntityOfType src .OBJECT_PROPERTY iri with
      | some e => rw [hO] at h; cases h
      | none =>
        rw [hO] at h
        cases hA : getDeclaredEntityOfType src .ANNOTATION_PROPERTY iri with
        | some e => rw [hA] at h; cases h
        | none =>
          rw [hA] at h
          cases t with
          | CLASS => exact getDeclaredEntityOfType_eq_none.mp hC axs haxs
          | OBJECT_PROPERTY =>
              exact getDeclaredEntityOfType_eq_none.mp hO axs haxs
          | DATA_PROPERTY =>
              exact getDeclaredEntityOfType_eq_none.mp h axs haxs
          | ANNOTATION_PROPERTY =>
              exact getDeclaredEntityOfType_eq_none.mp hA axs haxs
          | NAMED_INDIVIDUAL => exact absurd rfl ht
  · intro h
    unfold getExistingEntity getExistingProperty
    rw [getDeclaredEntityOfType_eq_none.mpr
        (fun axs haxs => h .CLASS (by simp) axs haxs),
      getDeclaredEntityOfType_eq_none.mpr
        (fun axs haxs => h .OBJECT_PROPERTY (by simp) axs haxs),
      getDeclaredEntityOfType_eq_none.mpr
        (fun axs haxs => h .ANNOTATION_PROPERTY (by simp) axs haxs),
      getDeclaredEntityOfType_eq_none.mpr
        (fun axs haxs => h .DATA_PROPERTY (by simp) axs haxs)]

/-- The named individual `ex:ind`, declared in the source. -/
def indEnt : OWLEntity := ⟨.NAMED_INDIVIDUAL, "http://example.org/ind"⟩

/-- A source ontology whose only axiom declares the individual `ex:ind`. -/
def srcInd : SourceOntology where
  rootAxioms := [.declaration indEnt]
  importedAxioms := []
  ontologyIRI := none
  versionIRI := none

/-- Counterexample for C7 as stated: the identifier `ex:ind` resolves to a
declared entity of one of the five kinds (a named individual) in the source
ontology, yet `addEntity` fails with the entity-not-found error, because
`getExistingEntity` searches only classes and the three property kinds. -/
theorem addEntity_individuals_counterexample :
    addEntity srcInd clearSignatures "http://example.org/ind" .SINGLE false =
      none ∧
    Axiom.declaration indEnt ∈ srcInd.rootAxioms := by decide

/-- C7 (amended): `addEntity` fails with the entity-not-found error exactly
when the identifier has no declaration as a class, object property, data
property or annotation property in the source ontology or its transitive
imports closure — declared named individuals are not found and also raise
the error.  On success the resolved entity is inserted into the set for the
given policy and the other sets are unchanged; on failure the error is
raised before any signature set is touched. -/
theorem addEntity_resolution (src : SourceOntology) (sigs : Signatures)
    (entityID : String) (method : ExtractionMethod) (b : Bool) :
    (addEntity src sigs entityID method b = none ↔
      ∀ t : EntityType, t ≠ .NAMED_INDIVIDUAL →
        ∀ axs ∈ src.importsClosure,
          getDeclarationAxioms axs ⟨t, entityID⟩ = []) ∧
    (∀ sigs', addEntity src sigs entityID method b = some sigs' →
      ∀ entity, getExistingEntity src entityID = some entity →
        sigs' =
          (match method with
            | .LOCALITY =>
                { sigs with sigLocality := addToSet sigs.sigLocality entity }
            | .SINGLE =>
                { sigs with sigSingle := addToSet sigs.sigSingle entity }
            | .HIERARCHY =>
                { sigs with
                    sigHierarchy := addToSet sigs.sigHierarchy entity })) := by
  constructor
  · rw [← getExistingEntity_eq_none]
    unfold addEntity
    cases hE : getExistingEntity src entityID with
    | none => simp
    | some e => simp
  · intro sigs' h entity hent
    unfold addEntity at h
    rw [hent] at h
    cases method with
    | LOCALITY =>
        replace h : some
            { sigs with sigLocality := addToSet sigs.sigLocality entity } =
            some sigs' := h
        injection h with h'
        exact h'.symm
    | SINGLE =>
        replace h : some
            { sigs with sigSingle := addToSet sigs.sigSingle entity } =
            some sigs' := h
        injection h with h'
        exact h'.symm
    | HIERARCHY =>
        replace h : some
            { sigs with sigHierarchy := addToSet sigs.sigHierarchy entity } =
            some sigs' := h
        injection h with h'
        exact h'.symm

/-- Witness for C7 (amended): resolving the declared annotation property
`ex:hasSource` succeeds and inserts it into the Single set, and resolving
an undeclared identifier fails. -/
theorem addEntity_resolution_witness :
    addEntity srcFoo clearSignatures "http://example.org/hasSource" .SINGLE
      false =
      some
        { sigLocality := [], sigSingle := [hasSourceEnt],
          sigHierarchy := [] } ∧
    ({ sigLocality := [], sigSingle := [hasSourceEnt],
       sigHierarchy := [] } : Signatures) =
      { clearSignatures with
          sigSingle := addToSet clearSignatures.sigSingle hasSourceEnt } ∧
    addEntity srcInd clearSignatures "http://example.org/nothere" .SINGLE
      false = none := by
  refine ⟨by decide, ?_, ?_⟩
  · exact (addEntity_resolution srcFoo clearSignatures
        "http://example.org/hasSource" .SINGLE false).2
      { sigLocality := [], sigSingle := [hasSourceEnt], sigHierarchy := [] }
      (by decide) hasSourceEnt (by decide)
  · apply (addEntity_resolution srcInd clearSignatures
        "http://example.org/nothere" .SINGLE false).1.mpr
    intro t ht axs haxs
    replace haxs : axs ∈ [[Axiom.declaration indEnt]] := haxs
    rw [List.mem_singleton] at haxs
    subst haxs
    cases t <;> rfl

/-- C9: `addEntity` never consults the `include_branch` flag — for every
identifier and policy the resulting registry state is identical for both
flag values, and in particular no descendants are added to any signature
set. -/
theorem addEntity_ignores_includeBranch (src : SourceOntology)
    (sigs : Signatures) (entityID : String) (method : ExtractionMethod)
    (b1 b2 : Bool) :
    addEntity src sigs entityID method b1 =
      addEntity src sigs entityID method b2 := rfl

end OntoBuilder
